import Mathlib

/-!
Shallow embedding of `src/pdu_prometheus_api.py` (a PDU-to-Prometheus SNMP
exporter) and verification of its specification claims.

Modelling choices:
* Raw SNMP values are modelled as exact rationals (`ℚ`); a value on which
  Python's `float(str(val))` raises is modelled by the constructor `nonnum`.
* One tree walk's transport behaviour is a `WalkTrace`: the list of items the
  `nextCmd` iterator yields (each either a normal varBind list or an
  error-indication/error-status response), a flag saying whether the iterator
  raises an exception after those yields, and the wall-clock duration of the
  walk (used only by the scheduler model).
* The Prometheus registry is a record of functions from label tuples to
  values: gauges are `Option ℚ` (a labelled child exists only once set),
  counters are running totals.  `Counter.inc` raises `ValueError` on a
  negative amount, as `prometheus_client` does.
* Python exceptions that escape a function are modelled with `Except PyExc`.
  `snmp_walk` itself catches every exception, so it is a total function.
-/

namespace PduApi

/-- A raw value held in one varBind: either numeric (what `float(str(val))`
returns, as an exact rational) or non-numeric (`float` raises `ValueError`). -/
inductive RawVal where
  | num (v : ℚ)
  | nonnum
deriving DecidableEq

/-- One item yielded by the `nextCmd` iterator inside `snmp_walk`: either a
normal response carrying varBinds `(oid, value)`, or a response whose
`errorIndication`/`errorStatus` is set, carrying the oids of its varBinds. -/
inductive WalkEvent where
  | data (varBinds : List (String × RawVal))
  | err (oids : List String)
deriving DecidableEq

/-- Transport behaviour of one tree walk: the yields of the iterator, whether
the iterator raises an exception once those yields are exhausted, and how long
the walk takes (only the scheduler model reads `duration`). -/
structure WalkTrace where
  events : List WalkEvent
  raisesAtEnd : Bool
  duration : ℕ
deriving DecidableEq

/-- A transport collaborator for one device: each base oid determines the
trace of the walk issued against it. -/
def Transport : Type := String → WalkTrace

/-- An exception escaping a modelled Python function. -/
inductive PyExc where
  | keyError (key : String)
  | valueError
deriving DecidableEq

/-- Pointwise update of a label-keyed map, as written by the registry. -/
def upd {α β : Type} [DecidableEq α] (f : α → β) (k : α) (v : β) : α → β :=
  fun x => if x = k then v else f x

/-- The Prometheus registry of the source: the two gauges, the energy counter
and the failure counter, each keyed by its label tuple. -/
structure Registry where
  pdu_voltage : String × String → Option ℚ
  pdu_current : String × String × String → Option ℚ
  pdu_energy : String × String → ℚ
  snmp_failures : String × String → ℕ

/-- The registry before any write: no gauge children, counters at zero. -/
def emptyRegistry : Registry :=
  ⟨fun _ => none, fun _ => none, fun _ => 0, fun _ => 0⟩

/-- The write `VOLTAGE_GAUGE.labels(ip=ip, oid=oid).set(val)`. -/
def setVoltage (r : Registry) (ip oid : String) (v : ℚ) : Registry :=
  { r with pdu_voltage := upd r.pdu_voltage (ip, oid) (some v) }

/-- The write `CURRENT_GAUGE.labels(ip=ip, server=server, oid=oid).set(val)`. -/
def setCurrent (r : Registry) (ip server oid : String) (v : ℚ) : Registry :=
  { r with pdu_current := upd r.pdu_current (ip, server, oid) (some v) }

/-- The write `ENERGY_COUNTER.labels(ip=ip, oid=oid).inc(amt)`: `prometheus_client`
raises `ValueError` when the amount is negative, otherwise it adds. -/
def incEnergy (r : Registry) (ip oid : String) (amt : ℚ) : Except PyExc Registry :=
  if amt < 0 then .error .valueError
  else .ok { r with pdu_energy := upd r.pdu_energy (ip, oid) (r.pdu_energy (ip, oid) + amt) }

/-- The write `SNMP_FAILURES.labels(ip=ip, oid=oid).inc()`. -/
def incFailure (r : Registry) (ip oid : String) : Registry :=
  { r with snmp_failures := upd r.snmp_failures (ip, oid) (r.snmp_failures (ip, oid) + 1) }

/-- The body of `results.append((str(oid), float(str(val))))` run over one
yield's varBinds: numeric values are appended in order; the first non-numeric
value makes `float` raise, so the rest of the varBinds are dropped and the
second component reports the exception. -/
def processBinds : List (String × RawVal) → List (String × ℚ) × Bool
  | [] => ([], false)
  | (oid, RawVal.num v) :: rest =>
      let pr := processBinds rest
      ((oid, v) :: pr.1, pr.2)
  | (_, RawVal.nonnum) :: _ => ([], true)

/-- The `async for` loop of `snmp_walk`, returning the accumulated `results`
list and the list of oids on which `SNMP_FAILURES` was incremented (one list
entry per `.inc()` call).  An error response increments the failure counter
once per varBind, keyed to that varBind's oid, and breaks out of the loop; an
exception (from the iterator, or from `float` on a non-numeric value) is
caught by the surrounding `try`, which increments the failure counter once
keyed to the base oid.  In every case the `results` gathered so far are
returned. -/
def walkGo (base : String) : List WalkEvent → Bool → List (String × ℚ) × List String
  | [], raisesAtEnd => if raisesAtEnd then ([], [base]) else ([], [])
  | WalkEvent.err oids :: _, _ => ([], oids)
  | WalkEvent.data binds :: rest, rae =>
      let pr := processBinds binds
      if pr.2 then (pr.1, [base])
      else
        let tl := walkGo base rest rae
        (pr.1 ++ tl.1, tl.2)

/-- The function `snmp_walk(ip, base_oid)` against a given walk trace: the returned
`results` and the failure-counter increments it performs (oids only; the ip
label is fixed by the caller). -/
def snmp_walk (base : String) (tr : WalkTrace) : List (String × ℚ) × List String :=
  walkGo base tr.events tr.raisesAtEnd

/-- Apply the failure-counter increments of one walk to the registry. -/
def applyFailures (r : Registry) (ip : String) : List String → Registry
  | [] => r
  | oid :: rest => applyFailures (incFailure r ip oid) ip rest

/-- Run one `snmp_walk` call: its results, and the registry after its
failure-counter increments. -/
def runWalk (r : Registry) (ip base : String) (t : Transport) :
    List (String × ℚ) × Registry :=
  ((snmp_walk base (t base)).1, applyFailures r ip (snmp_walk base (t base)).2)

/-- Lines 52–53: publish every voltage result to the voltage gauge, raw value
unchanged. -/
def publishVoltage (ip : String) : List (String × ℚ) → Registry → Registry
  | [], r => r
  | (oid, v) :: rest, r => publishVoltage ip rest (setVoltage r ip oid v)

/-- Lines 57–58: increment the energy counter by `val * 10` (kWh to Wh) for
every energy result; a negative amount raises out of `poll_device`. -/
def publishEnergy (ip : String) : List (String × ℚ) → Registry → Except PyExc Registry
  | [], r => .ok r
  | (oid, v) :: rest, r =>
      match incEnergy r ip oid (v * 10) with
      | .error e => .error e
      | .ok r2 => publishEnergy ip rest r2

/-- Lines 65–66: publish every current result as `val * 0.001` (mA to A). -/
def publishCurrent (ip server : String) : List (String × ℚ) → Registry → Registry
  | [], r => r
  | (oid, v) :: rest, r => publishCurrent ip server rest (setCurrent r ip server oid (v * (1 / 1000)))

/-- One entry of the `servers` list of the configuration; a key a given YAML
file omits is `none`, and subscripting it raises `KeyError`. -/
structure ServerEntry where
  name : Option String
  current_oid : Option String
deriving DecidableEq

/-- The `pdu` section of the raw YAML configuration. -/
structure RawConfig where
  ip : Option String
  voltage_oid : Option String
  energy_oid : Option String
  servers : Option (List ServerEntry)
deriving DecidableEq

/-- Dictionary subscription `d[key]`: the value when the key is present, `KeyError` otherwise. -/
def getKey {α : Type} (v : Option α) (key : String) : Except PyExc α :=
  match v with
  | some x => .ok x
  | none => .error (.keyError key)

/-- The module-level constants read at import time (lines 12–15). -/
structure LoadedConfig where
  PDU_IP : String
  VOLTAGE_OID : String
  ENERGY_OID : String
  SERVERS : List ServerEntry
deriving DecidableEq

/-- Lines 12–15, run at load time, before any polling: subscript the four
top-level keys; a missing one raises `KeyError` immediately.  The entries of
`servers` are not inspected here. -/
def loadConfig (c : RawConfig) : Except PyExc LoadedConfig :=
  match getKey c.ip "ip" with
  | .error e => .error e
  | .ok pip =>
    match getKey c.voltage_oid "voltage_oid" with
    | .error e => .error e
    | .ok void =>
      match getKey c.energy_oid "energy_oid" with
      | .error e => .error e
      | .ok eoid =>
        match getKey c.servers "servers" with
        | .error e => .error e
        | .ok svs => .ok ⟨pip, void, eoid, svs⟩

/-- The per-server loop of `poll_device` (lines 61–66): subscript `name` and
`current_oid` (raising `KeyError` if absent), walk the server's current oid,
publish its results.  Also returns the list of base oids walked, recording the
`snmp_walk` calls issued. -/
def pollServers (cfg : LoadedConfig) (t : Transport) :
    List ServerEntry → Registry → Except PyExc (Registry × List String)
  | [], r => .ok (r, [])
  | s :: rest, r =>
    match getKey s.name "name" with
    | .error e => .error e
    | .ok sname =>
      match getKey s.current_oid "current_oid" with
      | .error e => .error e
      | .ok base =>
        let wr := runWalk r cfg.PDU_IP base t
        match pollServers cfg t rest (publishCurrent cfg.PDU_IP sname wr.1 wr.2) with
        | .error e => .error e
        | .ok pr => .ok (pr.1, base :: pr.2)

/-- Lines 50–53 of `poll_device`: walk the voltage oid and publish each
result to the voltage gauge. -/
def voltageStep (cfg : LoadedConfig) (t : Transport) (r : Registry) : Registry :=
  publishVoltage cfg.PDU_IP (runWalk r cfg.PDU_IP cfg.VOLTAGE_OID t).1
    (runWalk r cfg.PDU_IP cfg.VOLTAGE_OID t).2

/-- Lines 55–58 of `poll_device`: walk the energy oid and increment the
energy counter for each result. -/
def energyStep (cfg : LoadedConfig) (t : Transport) (r : Registry) :
    Except PyExc Registry :=
  publishEnergy cfg.PDU_IP (runWalk r cfg.PDU_IP cfg.ENERGY_OID t).1
    (runWalk r cfg.PDU_IP cfg.ENERGY_OID t).2

/-- The function `poll_device()` (lines 49–66): walk voltage, publish; walk energy,
publish; walk each server's current oid, publish.  Returns the final registry
together with the list of base oids walked, in call order. -/
def poll_device (cfg : LoadedConfig) (t : Transport) (r : Registry) :
    Except PyExc (Registry × List String) :=
  match energyStep cfg t (voltageStep cfg t r) with
  | .error e => .error e
  | .ok r4 =>
    match pollServers cfg t cfg.SERVERS r4 with
    | .error e => .error e
    | .ok pr => .ok (pr.1, cfg.VOLTAGE_OID :: cfg.ENERGY_OID :: pr.2)

/-- The registry after a finite prefix of `poll_loop` cycles (lines 69–72),
one transport behaviour per cycle; an exception escaping `poll_device` crashes
the loop task, which the `Except` error propagates. -/
def pollCycles (cfg : LoadedConfig) : List Transport → Registry → Except PyExc Registry
  | [], r => .ok r
  | t :: rest, r =>
    match poll_device cfg t r with
    | .error e => .error e
    | .ok pr => pollCycles cfg rest pr.1

/-- The base oids of the well-formed entries of the servers list. -/
def serverBases (ss : List ServerEntry) : List String :=
  ss.filterMap (fun s => s.current_oid)

/-- True of a yield whose varBinds are all numeric and which carries no error
indication or status: processing it neither raises nor breaks. -/
def cleanEvent : WalkEvent → Bool
  | WalkEvent.data binds => binds.all (fun p => match p.2 with | RawVal.num _ => true | RawVal.nonnum => false)
  | WalkEvent.err _ => false

/-- The results a list of clean yields contributes. -/
def cleanResults : List WalkEvent → List (String × ℚ)
  | [] => []
  | WalkEvent.data binds :: rest => (processBinds binds).1 ++ cleanResults rest
  | WalkEvent.err _ :: rest => cleanResults rest

/-- Time spent walking inside one `poll_device` call: the walks are awaited
sequentially, and a malformed server entry raises before any further walk. -/
def serverDurations (t : Transport) : List ServerEntry → ℕ
  | [] => 0
  | s :: rest =>
    match s.name, s.current_oid with
    | some _, some b => (t b).duration + serverDurations t rest
    | _, _ => 0

/-- Duration of one `poll_device` call under a given transport behaviour. -/
def pollDuration (cfg : LoadedConfig) (t : Transport) : ℕ :=
  (t cfg.VOLTAGE_OID).duration + (t cfg.ENERGY_OID).duration
    + serverDurations t cfg.SERVERS

/-- Start time of the cycle following the given completed cycles: `poll_loop`
polls, then sleeps exactly 30, with no per-cycle deadline. -/
def cycleStart (cfg : LoadedConfig) : List Transport → ℕ
  | [] => 0
  | t :: rest => pollDuration cfg t + 30 + cycleStart cfg rest

/-! ### Helper lemmas -/

theorem upd_same {α β : Type} [DecidableEq α] (f : α → β) (k : α) (v : β) :
    upd f k v k = v := by
  simp [upd]

theorem upd_other {α β : Type} [DecidableEq α] (f : α → β) (k x : α) (v : β)
    (h : x ≠ k) : upd f k v x = f x := by
  simp [upd, h]

theorem processBinds_all_num (binds : List (String × RawVal))
    (h : binds.all (fun p => match p.2 with | RawVal.num _ => true | RawVal.nonnum => false) = true) :
    (processBinds binds).2 = false := by
  induction binds with
  | nil => rfl
  | cons hd tl ih =>
    obtain ⟨oid, val⟩ := hd
    cases val with
    | num v =>
      simp only [List.all_cons, Bool.and_eq_true] at h
      simp [processBinds, ih h.2]
    | nonnum => simp at h

theorem walkGo_clean_cons (base : String) (e : WalkEvent) (es : List WalkEvent)
    (rae : Bool) (h : cleanEvent e = true) :
    walkGo base (e :: es) rae
      = (cleanResults [e] ++ (walkGo base es rae).1, (walkGo base es rae).2) := by
  cases e with
  | data binds =>
    simp only [cleanEvent] at h
    simp [walkGo, cleanResults, processBinds_all_num binds h]
  | err oids => simp [cleanEvent] at h

/-- Prepending clean events to a walk contributes their results and leaves the
failure behaviour of the tail unchanged. -/
theorem walkGo_clean_append (base : String) (es tl : List WalkEvent) (rae : Bool)
    (h : ∀ e ∈ es, cleanEvent e = true) :
    walkGo base (es ++ tl) rae
      = (cleanResults es ++ (walkGo base tl rae).1, (walkGo base tl rae).2) := by
  induction es with
  | nil => simp [cleanResults]
  | cons hd rest ih =>
    have hhd : cleanEvent hd = true := h hd (by simp)
    have hrest : ∀ e ∈ rest, cleanEvent e = true := fun e he => h e (by simp [he])
    rw [List.cons_append, walkGo_clean_cons base hd (rest ++ tl) rae hhd, ih hrest]
    cases hd with
    | data binds => simp [cleanResults]
    | err oids => simp [cleanEvent] at hhd

/-! ### Claim theorems -/

/-- C8 amended: a walk that completes cleanly with zero yielded pairs (empty
subtree, no error, no exception) returns zero readings and performs zero
failure-counter increments.  It is distinguishable from a zero-result walk
ending in a transport exception, which performs exactly one failure increment
keyed to the base oid — but NOT from a zero-result walk whose error
indication/status response carries no varBinds, which also performs zero
failure increments. -/
theorem c8_empty_walk_yields_nothing (base : String) (d d2 d3 : ℕ) :
    snmp_walk base ⟨[], false, d⟩ = ([], [])
      ∧ snmp_walk base ⟨[], true, d2⟩ = ([], [base])
      ∧ snmp_walk base ⟨[WalkEvent.err []], false, d3⟩ = ([], []) :=
  ⟨rfl, rfl, rfl⟩

/-- C8 counterexample: a walk that returns zero results BECAUSE OF an error —
an error indication/status response carrying no varBinds (e.g. a timeout) —
produces zero readings and zero failure increments, exactly the outcome of a
successful walk over an empty subtree, so the two cases are not
distinguishable. -/
theorem c8_error_empty_indistinct_cex :
    snmp_walk "1.0" ⟨[WalkEvent.err []], false, 0⟩ = ([], [])
      ∧ snmp_walk "1.0" ⟨[], false, 0⟩ = ([], []) :=
  ⟨rfl, rfl⟩

/-- C10: voltage results are published to the voltage gauge with the raw
walked value unchanged — no scaling is applied (the current and energy
publishers multiply by `1/1000` and `10` respectively; the voltage publisher
stores `v` itself). -/
theorem c10_voltage_raw (r : Registry) (ip : String) (res : List (String × ℚ))
    (oid : String) (v : ℚ) :
    (publishVoltage ip (res ++ [(oid, v)]) r).pdu_voltage (ip, oid) = some v := by
  induction res generalizing r with
  | nil => simp [publishVoltage, setVoltage, upd_same]
  | cons hd tl ih =>
    obtain ⟨o, w⟩ := hd
    simpa [publishVoltage] using ih (setVoltage r ip o w)

/-- C5 amended: the published current for a raw value `v` is exactly
`v * (1/1000)` (the source's `val * 0.001`) for every `v`; a walked energy
value `e ≥ 0` increments the energy counter by exactly `e * 10` (the source's
`val * 10`); a negative walked energy value is not published at all —
`Counter.inc` raises `ValueError`, which escapes `poll_device`. -/
theorem c5_unit_conversion (r : Registry) (ip server oid : String) (v e : ℚ) :
    (publishCurrent ip server [(oid, v)] r).pdu_current (ip, server, oid)
        = some (v * (1 / 1000))
      ∧ (0 ≤ e → ∃ r2, publishEnergy ip [(oid, e)] r = .ok r2
            ∧ r2.pdu_energy (ip, oid) = r.pdu_energy (ip, oid) + e * 10)
      ∧ (e < 0 → publishEnergy ip [(oid, e)] r = .error .valueError) := by
  refine ⟨?_, ?_, ?_⟩
  · simp [publishCurrent, setCurrent, upd_same]
  · intro he
    have hnn : ¬ e * 10 < 0 := by nlinarith
    refine ⟨{ r with pdu_energy := upd r.pdu_energy (ip, oid) (r.pdu_energy (ip, oid) + e * 10) }, ?_, ?_⟩
    · simp [publishEnergy, incEnergy, hnn]
    · simp [upd_same]
  · intro he
    have hlt : e * 10 < 0 := by nlinarith
    simp [publishEnergy, incEnergy, hlt]

/-- C5 counterexample: the raw energy value `-1` does not produce a published
increment of `-10`; the energy publisher raises `ValueError` (from
`Counter.inc` on a negative amount) instead of writing the registry. -/
theorem c5_negative_energy_cex :
    publishEnergy "h" [("o", -1)] emptyRegistry = .error .valueError := by
  have hlt : (-1 : ℚ) * 10 < 0 := by norm_num
  simp [publishEnergy, incEnergy, hlt]

/-- C5 witness: raw current 300 publishes exactly 0.3 A, raw energy 12
increments the counter by exactly 120 Wh, and raw energy -1 raises. -/
theorem c5_unit_conversion_witness :
    (publishCurrent "h" "s1" [("o", 300)] emptyRegistry).pdu_current ("h", "s1", "o")
        = some (3 / 10)
      ∧ (∃ r2, publishEnergy "h" [("o", 12)] emptyRegistry = .ok r2
          ∧ r2.pdu_energy ("h", "o") = 120)
      ∧ publishEnergy "h" [("o", -1)] emptyRegistry = .error .valueError := by
  have h := c5_unit_conversion emptyRegistry "h" "s1" "o" 300 12
  have h2 := c5_unit_conversion emptyRegistry "h" "s1" "o" 300 (-1)
  refine ⟨?_, ?_, ?_⟩
  · rw [h.1]; norm_num
  · obtain ⟨r2, hr2, hval⟩ := h.2.1 (by norm_num)
    exact ⟨r2, hr2, by rw [hval]; norm_num [emptyRegistry]⟩
  · exact h2.2.2 (by norm_num)

/-- C1 counterexample: a walk that yields one good pair and then receives an
error response returns the gathered partial result (it is not discarded) and
increments the failure counter keyed to the error varBind's oid, not to the
base oid — so the outcome is not "zero readings and one failure on the base
oid" as claimed. -/
theorem c1_error_walk_cex :
    snmp_walk "1.0" ⟨[WalkEvent.data [("1.1", RawVal.num 7)], WalkEvent.err ["1.2"]], false, 0⟩
        = ([("1.1", 7)], ["1.2"])
      ∧ snmp_walk "1.0" ⟨[WalkEvent.data [("1.1", RawVal.num 7)], WalkEvent.err ["1.2"]], false, 0⟩
        ≠ ([], ["1.0"]) := by
  refine ⟨by decide, by decide⟩

/-- C1 amended: when the transport reports an error (error indication or
status) after any number of clean yields, the walk stops there, keeps and
returns every pair gathered before the error, and increments the failure
counter once per varBind of the error response, keyed to that varBind's oid
(the base oid is used only for the exception path). -/
theorem c1_error_keeps_gathered (base : String) (es : List WalkEvent)
    (oids : List String) (tl : List WalkEvent) (rae : Bool) (d : ℕ)
    (h : ∀ e ∈ es, cleanEvent e = true) :
    snmp_walk base ⟨es ++ WalkEvent.err oids :: tl, rae, d⟩ = (cleanResults es, oids) := by
  unfold snmp_walk
  rw [walkGo_clean_append base es (WalkEvent.err oids :: tl) rae h]
  simp [walkGo]

/-- C1 amended, witness: a walk yielding `("a", 2)` then an error response
with varBinds `["x", "y"]` returns the gathered pair and two failure
increments keyed to the error varBinds. -/
theorem c1_error_keeps_gathered_witness :
    snmp_walk "b" ⟨[WalkEvent.data [("a", RawVal.num 2)], WalkEvent.err ["x", "y"]], false, 0⟩
      = ([("a", 2)], ["x", "y"]) := by
  simpa [cleanResults, processBinds] using
    c1_error_keeps_gathered "b" [WalkEvent.data [("a", RawVal.num 2)]] ["x", "y"] [] false 0
      (by decide)

/-- Running `float(str(val))` over a list of numeric varBinds followed by a non-numeric
one: the numeric values before it are appended, the non-numeric one raises. -/
theorem processBinds_nonnum (pre : List (String × ℚ)) (oid : String)
    (post : List (String × RawVal)) :
    processBinds (pre.map (fun p => (p.1, RawVal.num p.2)) ++ (oid, RawVal.nonnum) :: post)
      = (pre, true) := by
  induction pre with
  | nil => rfl
  | cons hd tlp ih =>
    obtain ⟨o, v⟩ := hd
    simp [processBinds, ih]

/-- C9: a non-numeric raw value in a walked varBind raises inside the `try`
of `snmp_walk` and is treated exactly like a transport failure: the failure
counter is incremented once, keyed to the base oid, and the non-numeric value
itself is never converted or published (only pairs gathered before it appear
in the results). -/
theorem c9_nonnumeric_is_transport_failure (base : String) (es : List WalkEvent)
    (pre : List (String × ℚ)) (oid : String) (post : List (String × RawVal))
    (tl : List WalkEvent) (rae : Bool) (d : ℕ)
    (h : ∀ e ∈ es, cleanEvent e = true) :
    snmp_walk base
        ⟨es ++ WalkEvent.data
            (pre.map (fun p => (p.1, RawVal.num p.2)) ++ (oid, RawVal.nonnum) :: post) :: tl,
          rae, d⟩
      = (cleanResults es ++ pre, [base]) := by
  unfold snmp_walk
  rw [walkGo_clean_append base es _ rae h]
  simp [walkGo, processBinds_nonnum]

/-- C9 witness: a walk yielding `("a", 2)` and then a varBind whose value is
not numeric returns only the gathered pair and one failure increment keyed to
the base oid. -/
theorem c9_nonnumeric_is_transport_failure_witness :
    snmp_walk "b" ⟨[WalkEvent.data [("a", RawVal.num 2), ("c", RawVal.nonnum)]], false, 0⟩
      = ([("a", 2)], ["b"]) := by
  simpa [cleanResults, processBinds] using
    c9_nonnumeric_is_transport_failure "b" [] [("a", 2)] "c" [] [] false 0 (by decide)

/-! ### Preservation lemmas: which registry fields each operation can touch -/

theorem applyFailures_voltage (ip : String) (fs : List String) (r : Registry) :
    (applyFailures r ip fs).pdu_voltage = r.pdu_voltage := by
  induction fs generalizing r with
  | nil => rfl
  | cons hd tlf ih => exact ih (incFailure r ip hd)

theorem publishCurrent_voltage (ip server : String) (res : List (String × ℚ))
    (r : Registry) :
    (publishCurrent ip server res r).pdu_voltage = r.pdu_voltage := by
  induction res generalizing r with
  | nil => rfl
  | cons hd tlr ih =>
    obtain ⟨o, v⟩ := hd
    exact ih (setCurrent r ip server o (v * (1 / 1000)))

theorem publishEnergy_voltage (ip : String) (res : List (String × ℚ))
    (r r2 : Registry) (h : publishEnergy ip res r = .ok r2) :
    r2.pdu_voltage = r.pdu_voltage := by
  induction res generalizing r with
  | nil =>
    simp only [publishEnergy] at h
    cases h
    rfl
  | cons hd tlr ih =>
    obtain ⟨o, v⟩ := hd
    simp only [publishEnergy, incEnergy] at h
    by_cases hv : v * 10 < 0
    · simp [hv] at h
    · simp only [hv, if_false] at h
      have h2 := ih _ h
      exact h2

theorem pollServers_voltage (cfg : LoadedConfig) (t : Transport)
    (ss : List ServerEntry) (r r2 : Registry) (log : List String)
    (h : pollServers cfg t ss r = .ok (r2, log)) :
    r2.pdu_voltage = r.pdu_voltage := by
  induction ss generalizing r r2 log with
  | nil =>
    simp only [pollServers] at h
    cases h
    rfl
  | cons s rest ih =>
    simp only [pollServers] at h
    cases hn : s.name with
    | none => rw [hn] at h; simp [getKey] at h
    | some sname =>
      rw [hn] at h
      cases hc : s.current_oid with
      | none => rw [hc] at h; simp [getKey] at h
      | some base =>
        rw [hc] at h
        simp only [getKey] at h
        cases hps : pollServers cfg t rest
            (publishCurrent cfg.PDU_IP sname
              (runWalk r cfg.PDU_IP base t).1 (runWalk r cfg.PDU_IP base t).2) with
        | error e => rw [hps] at h; simp at h
        | ok pr =>
          rw [hps] at h
          simp only [Except.ok.injEq, Prod.mk.injEq] at h
          rw [← h.1]
          rw [ih _ pr.1 pr.2 hps, publishCurrent_voltage, runWalk, applyFailures_voltage]

theorem energyStep_voltage (cfg : LoadedConfig) (t : Transport) (r r2 : Registry)
    (h : energyStep cfg t r = .ok r2) : r2.pdu_voltage = r.pdu_voltage := by
  unfold energyStep at h
  rw [publishEnergy_voltage _ _ _ _ h, runWalk, applyFailures_voltage]

/-- A key whose oid was never yielded by the results list is untouched by the
voltage publisher. -/
theorem publishVoltage_untouched (ip0 : String) (res : List (String × ℚ))
    (r : Registry) (ip oid : String) (hno : ∀ v : ℚ, (oid, v) ∉ res) :
    (publishVoltage ip0 res r).pdu_voltage (ip, oid) = r.pdu_voltage (ip, oid) := by
  induction res generalizing r with
  | nil => rfl
  | cons hd tlr ih =>
    obtain ⟨o, v⟩ := hd
    have hne : oid ≠ o := by
      intro heq
      exact hno v (by simp [heq])
    have h2 : ∀ w : ℚ, (oid, w) ∉ tlr := fun w hw => hno w (List.mem_cons_of_mem _ hw)
    rw [publishVoltage, ih _ h2]
    simp [setVoltage, upd, hne]

theorem applyFailures_current (ip : String) (fs : List String) (r : Registry) :
    (applyFailures r ip fs).pdu_current = r.pdu_current := by
  induction fs generalizing r with
  | nil => rfl
  | cons hd tlf ih => exact ih (incFailure r ip hd)

theorem publishVoltage_current (ip : String) (res : List (String × ℚ)) (r : Registry) :
    (publishVoltage ip res r).pdu_current = r.pdu_current := by
  induction res generalizing r with
  | nil => rfl
  | cons hd tlr ih =>
    obtain ⟨o, v⟩ := hd
    exact ih (setVoltage r ip o v)

theorem publishEnergy_current (ip : String) (res : List (String × ℚ))
    (r r2 : Registry) (h : publishEnergy ip res r = .ok r2) :
    r2.pdu_current = r.pdu_current := by
  induction res generalizing r with
  | nil =>
    simp only [publishEnergy] at h
    cases h
    rfl
  | cons hd tlr ih =>
    obtain ⟨o, v⟩ := hd
    simp only [publishEnergy, incEnergy] at h
    by_cases hv : v * 10 < 0
    · simp [hv] at h
    · simp only [hv, if_false] at h
      have h2 := ih _ h
      exact h2

theorem energyStep_current (cfg : LoadedConfig) (t : Transport) (r r2 : Registry)
    (h : energyStep cfg t r = .ok r2) : r2.pdu_current = r.pdu_current := by
  unfold energyStep at h
  rw [publishEnergy_current _ _ _ _ h, runWalk, applyFailures_current]

theorem voltageStep_current (cfg : LoadedConfig) (t : Transport) (r : Registry) :
    (voltageStep cfg t r).pdu_current = r.pdu_current := by
  unfold voltageStep
  rw [publishVoltage_current, runWalk, applyFailures_current]

/-- A current-gauge key is untouched by one server's publisher when the key's
server label differs, or when the key's oid was never yielded. -/
theorem publishCurrent_untouched (ip0 sname : String) (res : List (String × ℚ))
    (r : Registry) (ip server oid : String)
    (hcase : sname ≠ server ∨ ∀ v : ℚ, (oid, v) ∉ res) :
    (publishCurrent ip0 sname res r).pdu_current (ip, server, oid)
      = r.pdu_current (ip, server, oid) := by
  induction res generalizing r with
  | nil => rfl
  | cons hd tlr ih =>
    obtain ⟨o, v⟩ := hd
    have htl : sname ≠ server ∨ ∀ w : ℚ, (oid, w) ∉ tlr := by
      cases hcase with
      | inl hne => exact Or.inl hne
      | inr hno => exact Or.inr (fun w hw => hno w (List.mem_cons_of_mem _ hw))
    have hkey : (ip, server, oid) ≠ (ip0, sname, o) := by
      intro hk
      cases hcase with
      | inl hne => exact hne (congrArg (fun p => p.2.1) hk).symm
      | inr hno =>
        have ho : oid = o := congrArg (fun p => p.2.2) hk
        exact hno v (by simp [List.mem_cons, ho])
    rw [publishCurrent, ih _ htl]
    simp only [setCurrent]
    exact upd_other _ _ _ _ hkey

/-- The per-server loop leaves a current-gauge key unchanged when no listed
server with the key's name has that oid among its walk's results. -/
theorem pollServers_current_frame (cfg : LoadedConfig) (t : Transport)
    (ss : List ServerEntry) (r r2 : Registry) (log : List String)
    (ip server oid : String)
    (h : pollServers cfg t ss r = .ok (r2, log))
    (hno : ∀ s ∈ ss, ∀ sname b, s.name = some sname → s.current_oid = some b →
      sname = server → ∀ v : ℚ, (oid, v) ∉ (snmp_walk b (t b)).1) :
    r2.pdu_current (ip, server, oid) = r.pdu_current (ip, server, oid) := by
  induction ss generalizing r r2 log with
  | nil =>
    simp only [pollServers] at h
    cases h
    rfl
  | cons s rest ih =>
    simp only [pollServers] at h
    cases hn : s.name with
    | none => rw [hn] at h; simp [getKey] at h
    | some sname =>
      rw [hn] at h
      cases hc : s.current_oid with
      | none => rw [hc] at h; simp [getKey] at h
      | some base =>
        rw [hc] at h
        simp only [getKey] at h
        cases hps : pollServers cfg t rest
            (publishCurrent cfg.PDU_IP sname
              (runWalk r cfg.PDU_IP base t).1 (runWalk r cfg.PDU_IP base t).2) with
        | error e => rw [hps] at h; simp at h
        | ok pr =>
          rw [hps] at h
          simp only [Except.ok.injEq, Prod.mk.injEq] at h
          rw [← h.1, ih _ pr.1 pr.2 hps
            (fun s2 hs2 => hno s2 (List.mem_cons_of_mem _ hs2))]
          have hcase : sname ≠ server ∨ ∀ v : ℚ, (oid, v) ∉ (runWalk r cfg.PDU_IP base t).1 := by

            by_cases hsn : sname = server
            · exact Or.inr (by simpa [runWalk] using hno s (by simp) sname base hn hc hsn)
            · exact Or.inl hsn
          rw [publishCurrent_untouched _ _ _ _ _ _ _ hcase, runWalk, applyFailures_current]

/-- C2 amended: a gauge label set whose oid was not yielded by the cycle's
relevant walk is left at its prior value by that cycle — for the voltage
gauge when the voltage walk yielded no pair for its oid, and for the current
gauge when no configured server with its server label had the oid among its
current walk's results.  A gauge only ever changes to a value a walk actually
returned.  (Pairs yielded before a mid-walk error, however, are still
applied, and a failed walk's counter increment is keyed to the base oid or to
the error varBinds' oids, not to the gauge's label set; see the
counterexample.) -/
theorem c2_gauge_frame (cfg : LoadedConfig) (t : Transport) (r R : Registry)
    (log : List String) (ip oid ip2 server coid : String)
    (h : poll_device cfg t r = .ok (R, log))
    (hno : ∀ v : ℚ, (oid, v) ∉ (snmp_walk cfg.VOLTAGE_OID (t cfg.VOLTAGE_OID)).1)
    (hnoc : ∀ s ∈ cfg.SERVERS, ∀ sname b, s.name = some sname →
      s.current_oid = some b → sname = server →
      ∀ v : ℚ, (coid, v) ∉ (snmp_walk b (t b)).1) :
    R.pdu_voltage (ip, oid) = r.pdu_voltage (ip, oid)
      ∧ R.pdu_current (ip2, server, coid) = r.pdu_current (ip2, server, coid) := by
  unfold poll_device at h
  split at h
  next e heq => exact absurd h (by simp)
  next r4 heq =>
    split at h
    next e2 heq2 => exact absurd h (by simp)
    next pr heq2 =>
      simp only [Except.ok.injEq, Prod.mk.injEq] at h
      constructor
      · rw [← h.1, pollServers_voltage cfg t cfg.SERVERS r4 pr.1 pr.2 heq2,
          energyStep_voltage _ _ _ _ heq]
        unfold voltageStep
        rw [publishVoltage_untouched _ _ _ _ _ (by simpa [runWalk] using hno)]
        rw [runWalk, applyFailures_voltage]
      · rw [← h.1,
          pollServers_current_frame cfg t cfg.SERVERS r4 pr.1 pr.2 ip2 server coid
            heq2 hnoc,
          energyStep_current _ _ _ _ heq, voltageStep_current]

/-- C2 amended, witness: with an empty voltage subtree whose walk errors at
once and one server whose current walk also errors without yields, both the
voltage gauge and the current gauge at unyielded label sets keep their prior
(absent) values. -/
theorem c2_gauge_frame_witness :
    ∃ R log, poll_device ⟨"ip", "V", "E", [⟨some "s1", some "C"⟩]⟩
        (fun _ => ⟨[], true, 0⟩) emptyRegistry = .ok (R, log)
      ∧ R.pdu_voltage ("ip", "V.9") = emptyRegistry.pdu_voltage ("ip", "V.9")
      ∧ R.pdu_current ("ip", "s1", "C.9") = emptyRegistry.pdu_current ("ip", "s1", "C.9") := by
  refine ⟨_, _, rfl, ?_⟩
  have h := c2_gauge_frame ⟨"ip", "V", "E", [⟨some "s1", some "C"⟩]⟩
    (fun _ => ⟨[], true, 0⟩) emptyRegistry _ _ "ip" "V.9" "ip" "s1" "C.9" rfl
    (by intro v hv; simp [snmp_walk, walkGo] at hv)
    (by
      intro s hs sname b hn hc hsn v hv
      simp [snmp_walk, walkGo] at hv)
  exact h

/-- C2 counterexample: a cycle whose voltage walk yields `("V.1", 5)` and
then dies in a transport exception is a failed read (the failure counter for
the category is incremented), yet the gauge at `("ip", "V.1")` changes from
absent to `5` — the gauge does not reflect only the most recent successful
cycle, and the failure increment is keyed to the base oid `"V"`, not to the
gauge's label set. -/
theorem c2_failed_cycle_changes_gauge_cex :
    ∃ R, poll_device ⟨"ip", "V", "E", []⟩
        (fun b => if b = "V" then ⟨[WalkEvent.data [("V.1", RawVal.num 5)]], true, 0⟩
                  else ⟨[], false, 0⟩) emptyRegistry
      = .ok (R, ["V", "E"])
      ∧ R.pdu_voltage ("ip", "V.1") = some 5
      ∧ R.snmp_failures ("ip", "V") = 1
      ∧ emptyRegistry.pdu_voltage ("ip", "V.1") = none := by
  refine ⟨_, rfl, ?_, ?_, rfl⟩ <;> decide

/-! ### Energy-counter lemmas -/

theorem applyFailures_energy (ip : String) (fs : List String) (r : Registry) :
    (applyFailures r ip fs).pdu_energy = r.pdu_energy := by
  induction fs generalizing r with
  | nil => rfl
  | cons hd tlf ih => exact ih (incFailure r ip hd)

theorem publishVoltage_energy (ip : String) (res : List (String × ℚ)) (r : Registry) :
    (publishVoltage ip res r).pdu_energy = r.pdu_energy := by
  induction res generalizing r with
  | nil => rfl
  | cons hd tlr ih =>
    obtain ⟨o, v⟩ := hd
    exact ih (setVoltage r ip o v)

theorem publishCurrent_energy (ip server : String) (res : List (String × ℚ))
    (r : Registry) :
    (publishCurrent ip server res r).pdu_energy = r.pdu_energy := by
  induction res generalizing r with
  | nil => rfl
  | cons hd tlr ih =>
    obtain ⟨o, v⟩ := hd
    exact ih (setCurrent r ip server o (v * (1 / 1000)))

theorem voltageStep_energy (cfg : LoadedConfig) (t : Transport) (r : Registry) :
    (voltageStep cfg t r).pdu_energy = r.pdu_energy := by
  unfold voltageStep
  rw [publishVoltage_energy, runWalk, applyFailures_energy]

/-- The registry writes of `publishEnergy` only ever add a non-negative
amount to an energy-counter key (a negative amount raises instead). -/
theorem publishEnergy_mono (ip : String) (res : List (String × ℚ))
    (r r2 : Registry) (h : publishEnergy ip res r = .ok r2) (p : String × String) :
    r.pdu_energy p ≤ r2.pdu_energy p := by
  induction res generalizing r with
  | nil =>
    simp only [publishEnergy] at h
    cases h
    exact le_refl _
  | cons hd tlr ih =>
    obtain ⟨o, v⟩ := hd
    simp only [publishEnergy, incEnergy] at h
    by_cases hv : v * 10 < 0
    · simp [hv] at h
    · simp only [hv, if_false] at h
      have step : r.pdu_energy p
          ≤ (upd r.pdu_energy (ip, o) (r.pdu_energy (ip, o) + v * 10)) p := by
        by_cases hp : p = (ip, o)
        · subst hp
          rw [upd_same]
          linarith [not_lt.mp hv]
        · rw [upd_other _ _ _ _ hp]
      exact le_trans step (ih _ h)

theorem energyStep_mono (cfg : LoadedConfig) (t : Transport) (r r2 : Registry)
    (h : energyStep cfg t r = .ok r2) (p : String × String) :
    r.pdu_energy p ≤ r2.pdu_energy p := by
  unfold energyStep at h
  have h2 := publishEnergy_mono _ _ _ _ h p
  rw [runWalk, applyFailures_energy] at h2
  exact h2

theorem pollServers_energy (cfg : LoadedConfig) (t : Transport)
    (ss : List ServerEntry) (r r2 : Registry) (log : List String)
    (h : pollServers cfg t ss r = .ok (r2, log)) :
    r2.pdu_energy = r.pdu_energy := by
  induction ss generalizing r r2 log with
  | nil =>
    simp only [pollServers] at h
    cases h
    rfl
  | cons s rest ih =>
    simp only [pollServers] at h
    cases hn : s.name with
    | none => rw [hn] at h; simp [getKey] at h
    | some sname =>
      rw [hn] at h
      cases hc : s.current_oid with
      | none => rw [hc] at h; simp [getKey] at h
      | some base =>
        rw [hc] at h
        simp only [getKey] at h
        cases hps : pollServers cfg t rest
            (publishCurrent cfg.PDU_IP sname
              (runWalk r cfg.PDU_IP base t).1 (runWalk r cfg.PDU_IP base t).2) with
        | error e => rw [hps] at h; simp at h
        | ok pr =>
          rw [hps] at h
          simp only [Except.ok.injEq, Prod.mk.injEq] at h
          rw [← h.1]
          rw [ih _ pr.1 pr.2 hps, publishCurrent_energy, runWalk, applyFailures_energy]

/-- One `poll_device` cycle never decreases any energy-counter key. -/
theorem poll_device_energy_mono (cfg : LoadedConfig) (t : Transport)
    (r R : Registry) (log : List String) (h : poll_device cfg t r = .ok (R, log))
    (p : String × String) : r.pdu_energy p ≤ R.pdu_energy p := by
  unfold poll_device at h
  split at h
  next e heq => exact absurd h (by simp)
  next r4 heq =>
    split at h
    next e2 heq2 => exact absurd h (by simp)
    next pr heq2 =>
      simp only [Except.ok.injEq, Prod.mk.injEq] at h
      rw [← h.1, pollServers_energy cfg t cfg.SERVERS r4 pr.1 pr.2 heq2]
      have h2 := energyStep_mono _ _ _ _ heq p
      rw [voltageStep_energy] at h2
      exact h2

/-- Any ok-run of finitely many cycles never decreases an energy counter. -/
theorem pollCycles_energy_mono (cfg : LoadedConfig) (ts : List Transport)
    (r r2 : Registry) (h : pollCycles cfg ts r = .ok r2) (p : String × String) :
    r.pdu_energy p ≤ r2.pdu_energy p := by
  induction ts generalizing r with
  | nil =>
    simp only [pollCycles] at h
    cases h
    exact le_refl _
  | cons t rest ih =>
    simp only [pollCycles] at h
    cases hpd : poll_device cfg t r with
    | error e => rw [hpd] at h; simp at h
    | ok pr =>
      rw [hpd] at h
      exact le_trans (poll_device_energy_mono cfg t r pr.1 pr.2 hpd p) (ih _ h)

/-- Running the cycles of `ts1` and then those of `ts2` is running their
concatenation. -/
theorem pollCycles_append (cfg : LoadedConfig) (ts1 ts2 : List Transport)
    (r r1 : Registry) (h1 : pollCycles cfg ts1 r = .ok r1) :
    pollCycles cfg (ts1 ++ ts2) r = pollCycles cfg ts2 r1 := by
  induction ts1 generalizing r with
  | nil =>
    simp only [pollCycles] at h1
    cases h1
    rfl
  | cons t rest ih =>
    simp only [pollCycles] at h1 ⊢
    cases hpd : poll_device cfg t r with
    | error e => rw [hpd] at h1; simp at h1
    | ok pr =>
      rw [hpd] at h1
      exact ih _ h1

/-- C3: energy counters are non-decreasing across any sequence of cycles,
however failures interleave: if cycle prefix `ts1` finishes in registry `r1`
and the longer prefix `ts1 ++ ts2` finishes in `r2`, every energy-counter key
satisfies `r1 ≤ r2`.  A failed walk only increments the failure counter, and
a negative increment raises rather than writing, so no cycle resets or
decrements an energy counter. -/
theorem c3_energy_counter_monotone (cfg : LoadedConfig) (ts1 ts2 : List Transport)
    (r r1 r2 : Registry) (p : String × String)
    (h1 : pollCycles cfg ts1 r = .ok r1)
    (h2 : pollCycles cfg (ts1 ++ ts2) r = .ok r2) :
    r1.pdu_energy p ≤ r2.pdu_energy p := by
  rw [pollCycles_append cfg ts1 ts2 r r1 h1] at h2
  exact pollCycles_energy_mono cfg ts2 r1 r2 h2 p

/-- C3 witness: two cycles that each walk energy value 3 while the voltage
walk fails every cycle; the counter after the first cycle is bounded by the
counter after both. -/
theorem c3_energy_counter_monotone_witness :
    ∃ r1 r2,
      pollCycles ⟨"ip", "V", "E", []⟩
          [fun b => if b = "E" then ⟨[WalkEvent.data [("E.1", RawVal.num 3)]], false, 0⟩
                    else ⟨[], true, 0⟩] emptyRegistry = .ok r1
      ∧ pollCycles ⟨"ip", "V", "E", []⟩
          ([fun b => if b = "E" then ⟨[WalkEvent.data [("E.1", RawVal.num 3)]], false, 0⟩
                     else ⟨[], true, 0⟩]
            ++ [fun b => if b = "E" then ⟨[WalkEvent.data [("E.1", RawVal.num 3)]], false, 0⟩
                         else ⟨[], true, 0⟩]) emptyRegistry = .ok r2
      ∧ r1.pdu_energy ("ip", "E.1") ≤ r2.pdu_energy ("ip", "E.1") := by
  obtain ⟨r1, h1⟩ : ∃ r1, pollCycles ⟨"ip", "V", "E", []⟩
      [fun b => if b = "E" then ⟨[WalkEvent.data [("E.1", RawVal.num 3)]], false, 0⟩
                else ⟨[], true, 0⟩] emptyRegistry = .ok r1 := by
    norm_num [pollCycles, poll_device, voltageStep, energyStep, runWalk, snmp_walk, walkGo,
      processBinds, publishVoltage, publishEnergy, incEnergy, pollServers, applyFailures,
      incFailure, setVoltage, upd, emptyRegistry]
  obtain ⟨r2, h2⟩ : ∃ r2, pollCycles ⟨"ip", "V", "E", []⟩
      ([fun b => if b = "E" then ⟨[WalkEvent.data [("E.1", RawVal.num 3)]], false, 0⟩
                 else ⟨[], true, 0⟩]
        ++ [fun b => if b = "E" then ⟨[WalkEvent.data [("E.1", RawVal.num 3)]], false, 0⟩
                     else ⟨[], true, 0⟩]) emptyRegistry = .ok r2 := by
    norm_num [pollCycles, poll_device, voltageStep, energyStep, runWalk, snmp_walk, walkGo,
      processBinds, publishVoltage, publishEnergy, incEnergy, pollServers, applyFailures,
      incFailure, setVoltage, upd, emptyRegistry]
  exact ⟨r1, r2, h1, h2,
    c3_energy_counter_monotone ⟨"ip", "V", "E", []⟩ _ _ emptyRegistry _ _
      ("ip", "E.1") h1 h2⟩

/-! ### Totality lemmas: which exceptions can escape `poll_device` -/

/-- The publisher `publishEnergy` only raises on a negative published value. -/
theorem publishEnergy_ok (ip : String) (res : List (String × ℚ)) (r : Registry) :
    (∀ p ∈ res, 0 ≤ p.2) → ∃ r2, publishEnergy ip res r = .ok r2 := by
  induction res generalizing r with
  | nil => exact fun _ => ⟨r, rfl⟩
  | cons hd tlr ih =>
    intro h
    obtain ⟨o, v⟩ := hd
    have hv : (0 : ℚ) ≤ v := h (o, v) (by simp)
    have hnn : ¬ v * 10 < 0 := by nlinarith
    simp only [publishEnergy, incEnergy, hnn, if_false]
    exact ih _ (fun p hp => h p (List.mem_cons_of_mem _ hp))

/-- With every server entry carrying both keys, the per-server loop raises
nothing, walks every server's base oid, and succeeds — whatever the
transport's walks do. -/
theorem pollServers_ok (cfg : LoadedConfig) (t : Transport) (ss : List ServerEntry)
    (r : Registry) (h : ∀ s ∈ ss, s.name.isSome ∧ s.current_oid.isSome) :
    ∃ r2, pollServers cfg t ss r = .ok (r2, serverBases ss) := by
  induction ss generalizing r with
  | nil => exact ⟨r, rfl⟩
  | cons s rest ih =>
    obtain ⟨hn, hc⟩ := h s (by simp)
    obtain ⟨sname, hsname⟩ := Option.isSome_iff_exists.mp hn
    obtain ⟨base, hbase⟩ := Option.isSome_iff_exists.mp hc
    obtain ⟨r2, hr2⟩ := ih
      (publishCurrent cfg.PDU_IP sname
        (runWalk r cfg.PDU_IP base t).1 (runWalk r cfg.PDU_IP base t).2)
      (fun s2 hs2 => h s2 (List.mem_cons_of_mem _ hs2))
    refine ⟨r2, ?_⟩
    simp only [pollServers, hsname, hbase, getKey]
    rw [hr2]
    simp [serverBases, hbase]

/-- C4: with a structurally complete server list and non-negative walked
energy values, `poll_device` completes for every transport behaviour: each
category's walk (voltage, energy, every server's current) is issued even when
other walks fail, and any transport-level exception inside a walk is caught
in `snmp_walk`, so nothing propagates to the scheduler loop. -/
theorem c4_failure_isolated (cfg : LoadedConfig) (t : Transport) (r : Registry)
    (h1 : ∀ s ∈ cfg.SERVERS, s.name.isSome ∧ s.current_oid.isSome)
    (h2 : ∀ p ∈ (snmp_walk cfg.ENERGY_OID (t cfg.ENERGY_OID)).1, 0 ≤ p.2) :
    ∃ R, poll_device cfg t r
      = .ok (R, cfg.VOLTAGE_OID :: cfg.ENERGY_OID :: serverBases cfg.SERVERS) := by
  obtain ⟨r4, hr4⟩ := publishEnergy_ok cfg.PDU_IP
    (runWalk (voltageStep cfg t r) cfg.PDU_IP cfg.ENERGY_OID t).1
    (runWalk (voltageStep cfg t r) cfg.PDU_IP cfg.ENERGY_OID t).2 h2
  obtain ⟨R, hR⟩ := pollServers_ok cfg t cfg.SERVERS r4 h1
  refine ⟨R, ?_⟩
  have step : poll_device cfg t r
      = (match pollServers cfg t cfg.SERVERS r4 with
         | .error e => .error e
         | .ok pr => .ok (pr.1, cfg.VOLTAGE_OID :: cfg.ENERGY_OID :: pr.2)) := by
    unfold poll_device energyStep
    rw [hr4]
  rw [step, hR]

/-- C4 witness: one server, a voltage walk that dies in a transport
exception, an energy walk that errors immediately — the poll still completes
and still walks voltage, energy and the server's current oid. -/
theorem c4_failure_isolated_witness :
    ∃ R, poll_device ⟨"ip", "V", "E", [⟨some "s1", some "C1"⟩]⟩
        (fun b => if b = "V" then ⟨[], true, 0⟩ else ⟨[WalkEvent.err []], false, 0⟩)
        emptyRegistry
      = .ok (R, ["V", "E", "C1"]) := by
  exact c4_failure_isolated ⟨"ip", "V", "E", [⟨some "s1", some "C1"⟩]⟩
    (fun b => if b = "V" then ⟨[], true, 0⟩ else ⟨[WalkEvent.err []], false, 0⟩)
    emptyRegistry (by decide) (by decide)

/-- C6 counterexample: a configuration whose four top-level keys are present
but whose single server entry lacks `current_oid` loads without complaint
(load time reads only the top-level keys), and the missing sub-target base
identifier then surfaces as an uncaught `KeyError` inside `poll_device`,
during a polling cycle. -/
theorem c6_subtarget_oid_checked_late_cex :
    loadConfig ⟨some "10.0.0.9", some "1.3.1", some "1.3.2", some [⟨some "s1", none⟩]⟩
        = .ok ⟨"10.0.0.9", "1.3.1", "1.3.2", [⟨some "s1", none⟩]⟩
      ∧ poll_device ⟨"10.0.0.9", "1.3.1", "1.3.2", [⟨some "s1", none⟩]⟩
          (fun _ => ⟨[], false, 0⟩) emptyRegistry
        = .error (.keyError "current_oid") :=
  ⟨rfl, rfl⟩

/-- C6 amended: load-time validation covers exactly the four top-level keys
(`ip`, `voltage_oid`, `energy_oid`, `servers`) — the load succeeds iff all
four are present; a server entry's `name` or `current_oid` is first read
inside `poll_device`, so a missing sub-target current identifier surfaces
during a polling cycle, not at load time. -/
theorem c6_load_time_checks (c : RawConfig) :
    (∃ lc, loadConfig c = .ok lc)
      ↔ (c.ip.isSome ∧ c.voltage_oid.isSome ∧ c.energy_oid.isSome ∧ c.servers.isSome) := by
  obtain ⟨cip, cvo, ceo, csv⟩ := c
  cases cip <;> cases cvo <;> cases ceo <;> cases csv <;>
    simp [loadConfig, getKey]

/-- C6 amended, witness: a fully keyed config loads. -/
theorem c6_load_time_checks_witness :
    ∃ lc, loadConfig ⟨some "a", some "b", some "c", some []⟩ = .ok lc :=
  (c6_load_time_checks ⟨some "a", some "b", some "c", some []⟩).mpr
    (by constructor <;> simp)

/-- C7 counterexample: no per-cycle deadline exists — for every candidate
bound `D` there is a transport behaviour (a single slow walk) making the
polling phase of a cycle last longer than `D`, because `poll_loop` only ever
awaits `poll_device` to completion before sleeping. -/
theorem c7_no_cycle_deadline_cex :
    ¬ ∃ D : ℕ, ∀ t : Transport, pollDuration ⟨"ip", "V", "E", []⟩ t ≤ D := by
  rintro ⟨D, h⟩
  have h2 := h (fun _ => ⟨[], false, D + 1⟩)
  simp only [pollDuration, serverDurations] at h2
  omega

/-- C7 amended: the loop starts its first poll immediately, and each later
cycle starts exactly when the previous poll completes plus the fixed 30-unit
sleep — the cycle ends only on poll completion (no deadline), so a slow
device delays the next cycle's start by its full poll duration. -/
theorem c7_fixed_sleep_no_deadline (cfg : LoadedConfig) (ts : List Transport)
    (t : Transport) :
    cycleStart cfg [] = 0
      ∧ cycleStart cfg (ts ++ [t]) = cycleStart cfg ts + pollDuration cfg t + 30 := by
  refine ⟨rfl, ?_⟩
  induction ts with
  | nil => simp [cycleStart]
  | cons hd tlt ih =>
    simp only [List.cons_append, cycleStart, List.append_eq]
    rw [ih]
    omega

end PduApi
